import Mathlib

/-!
Verification of the broker-commission CSV pipeline (src/commission.js).

Shallow embedding of `src/commission.js`.  Modelling conventions:

* A JavaScript string is a `List Char` (`Str` below); a CSV row is a list of
  field strings and a CSV table (`Data`) is a list of rows.
* A JavaScript number is `JNum`: either `nan` or an exact rational.  Floating
  point is idealised as exact rational arithmetic; division by zero (which in
  JavaScript yields an infinity) is folded into `nan`, which is observationally
  identical in this program because such values only ever reach `parseInt`,
  and `parseInt` of an infinity is already `NaN`.
* Code that can throw a `TypeError` (accessing a method of `undefined`, which
  happens in this program when a destructured CSV field is missing) is modelled
  in the `Except Unit` monad, `Except.error ()` standing for the thrown error.
* `parseFloat`, the `Number` coercion performed by `*`, `toFixed(2)`, number to
  string conversion and `String.prototype.trim` are modelled on their ECMA
  definitions restricted to the forms reachable here: exponent notation,
  hexadecimal literals, `Infinity` parsing and non-ASCII whitespace are not
  modelled (no value in this development uses them).
-/

/-- A JavaScript string: a list of characters. -/
abbrev Str := List Char

/-- A CSV row: a list of field strings. -/
abbrev Row := List Str

/-- A CSV table: a list of rows. -/
abbrev Data := List Row

/-- Coerce a Lean string literal to the `Str` representation. -/
def str (s : String) : Str := s.data

/-- A JavaScript number, idealised: `NaN` or an exact rational. -/
inductive JNum : Type
  | nan : JNum
  | num (q : ℚ) : JNum
  deriving DecidableEq

deriving instance DecidableEq for Except

/-- JavaScript `+` on numbers; `NaN` is absorbing. -/
def jnumAdd : JNum → JNum → JNum
  | JNum.num a, JNum.num b => JNum.num (a + b)
  | _, _ => JNum.nan

/-- JavaScript `*` on numbers; `NaN` is absorbing. -/
def jnumMul : JNum → JNum → JNum
  | JNum.num a, JNum.num b => JNum.num (a * b)
  | _, _ => JNum.nan

/-- JavaScript unary minus; `-NaN` is `NaN`. -/
def jnumNeg : JNum → JNum
  | JNum.nan => JNum.nan
  | JNum.num q => JNum.num (-q)

/-- Subtract a plain rational from a JavaScript number. -/
def jnumSubQ : JNum → ℚ → JNum
  | JNum.nan, _ => JNum.nan
  | JNum.num a, t => JNum.num (a - t)

/-- Multiply a JavaScript number by a plain rational. -/
def jnumMulQ : JNum → ℚ → JNum
  | JNum.nan, _ => JNum.nan
  | JNum.num a, t => JNum.num (a * t)

/-- Divide a JavaScript number by a plain rational.  Division by zero yields
an infinity in JavaScript; it is folded into `nan` here, see the header
comment for why this program cannot observe the difference. -/
def jnumDivQ : JNum → ℚ → JNum
  | JNum.nan, _ => JNum.nan
  | JNum.num a, t => if t = 0 then JNum.nan else JNum.num (a / t)

/-- JavaScript `x > t` for a number `x` and rational constant `t`:
every comparison with `NaN` is false. -/
def jnumGtQ : JNum → ℚ → Bool
  | JNum.nan, _ => false
  | JNum.num a, t => decide (t < a)

/-- Multiplication of a JavaScript number by a looked-up conversion rate:
when the lookup missed, the rate is `undefined` and the product is `NaN`. -/
def jnumMulRate (x : JNum) : Option ℚ → JNum
  | none => JNum.nan
  | some r => jnumMul x (JNum.num r)

/-- Truncation toward zero, the rounding performed by JavaScript `parseInt`
when it is handed (the decimal string of) a number. -/
def jsTrunc (q : ℚ) : ℤ := if q < 0 then -(Rat.floor (-q)) else Rat.floor q

/-- JavaScript `parseInt` applied to a number argument: the number is
converted to its decimal string and re-parsed, which truncates toward zero
(`NaN` and infinities give `NaN`). -/
def jsParseIntNum : JNum → JNum
  | JNum.nan => JNum.nan
  | JNum.num q => JNum.num ((jsTrunc q : ℤ) : ℚ)

/-- The ASCII whitespace characters recognised by `String.prototype.trim`,
`parseFloat` and the `Number` coercion (non-ASCII whitespace not modelled). -/
def isJSSpace (c : Char) : Bool :=
  c = ' ' || c = '\t' || c = '\n' || c = '\r' || c = '\x0b' || c = '\x0c'

/-- `String.prototype.trim`: strip whitespace from both ends. -/
def jsTrim (s : Str) : Str :=
  ((s.dropWhile isJSSpace).reverse.dropWhile isJSSpace).reverse

/-- ASCII decimal digit test. -/
def isDigitChar (c : Char) : Bool := decide ('0' ≤ c) && decide (c ≤ '9')

/-- Numeric value of an ASCII digit. -/
def digitVal (c : Char) : ℕ := c.toNat - 48

/-- Value of a string of ASCII digits (most significant first). -/
def digitsToNat (s : Str) : ℕ := s.foldl (fun a c => 10 * a + digitVal c) 0

/-- Unsigned core of `parseFloat`: longest leading `digits [. digits]`
numeral; `NaN` when no digit is found.  Trailing garbage is ignored,
exponent suffixes are not modelled. -/
def parseFloatCore (s : Str) : JNum :=
  let intPart := s.takeWhile isDigitChar
  let rest := s.dropWhile isDigitChar
  let fracPart := if rest.take 1 = ['.'] then (rest.drop 1).takeWhile isDigitChar else []
  if intPart = [] ∧ fracPart = [] then JNum.nan
  else JNum.num ((digitsToNat intPart : ℚ) + (digitsToNat fracPart : ℚ) / (10 : ℚ) ^ fracPart.length)

/-- JavaScript `parseFloat` on a string: skip leading whitespace, optional
sign, then the longest leading decimal numeral; `NaN` if there is none. -/
def parseFloatChars (s : Str) : JNum :=
  let s1 := s.dropWhile isJSSpace
  match s1 with
  | '-' :: r => jnumNeg (parseFloatCore r)
  | '+' :: r => parseFloatCore r
  | _ => parseFloatCore s1

/-- Unsigned core of the `Number` coercion: unlike `parseFloat` the whole
remaining string must be a decimal numeral, otherwise the result is `NaN`. -/
def toNumberCore (u : Str) : JNum :=
  let intPart := u.takeWhile isDigitChar
  let rest1 := u.dropWhile isDigitChar
  let fracPart := if rest1.take 1 = ['.'] then (rest1.drop 1).takeWhile isDigitChar else []
  let rest2 := if rest1.take 1 = ['.'] then (rest1.drop 1).dropWhile isDigitChar else rest1
  if rest2 = [] ∧ ¬(intPart = [] ∧ fracPart = []) then
    JNum.num ((digitsToNat intPart : ℚ) + (digitsToNat fracPart : ℚ) / (10 : ℚ) ^ fracPart.length)
  else JNum.nan

/-- The JavaScript `Number` coercion applied to a string by the `*` operator:
trim whitespace, empty string is `0`, otherwise the entire string must be an
optionally signed decimal numeral (hexadecimal and `Infinity` not modelled). -/
def jsToNumber (s : Str) : JNum :=
  let t := jsTrim s
  if t = [] then JNum.num 0
  else
    match t with
    | '-' :: r => jnumNeg (toNumberCore r)
    | '+' :: r => toNumberCore r
    | _ => toNumberCore t

/-- JavaScript `parseFloat` applied to a number argument (line 69 of the
source multiplies first, then calls `parseFloat` on the resulting number):
the number is converted to its string and parsed back, the identity on
finite doubles, and `NaN` stays `NaN`. -/
def jsParseFloatNum (x : JNum) : JNum := x

/-- Decimal digits of a natural number, accumulator and fuel based so that
the kernel can evaluate it. -/
def natCharsAux : ℕ → ℕ → Str → Str
  | 0, _, acc => acc
  | fuel + 1, n, acc =>
    if n = 0 then acc
    else natCharsAux fuel (n / 10) (Char.ofNat (48 + n % 10) :: acc)

/-- Decimal digit string of a natural number. -/
def natChars (n : ℕ) : Str := if n = 0 then ['0'] else natCharsAux (n + 1) n []

/-- Pad a digit string with leading zeros up to width `k`. -/
def padZeros (k : ℕ) (s : Str) : Str := List.replicate (k - s.length) '0' ++ s

/-- Smallest exponent `k` with `den ∣ 10 ^ k`, when one exists (it does for
every denominator of a value representable as a binary double). -/
def decExp (den : ℕ) : Option ℕ :=
  (List.range (den + 1)).find? (fun k => Nat.pow 10 k % den == 0)

/-- JavaScript number-to-string conversion (as performed by template
literals): `NaN` prints as `"NaN"`, a decimal rational prints as its exact
decimal expansion with no trailing fractional zeros and no decimal point for
integers.  The non-decimal fallback branch is unreachable for values of
binary doubles and exponent notation for huge magnitudes is not modelled. -/
def jsNumToStr : JNum → Str
  | JNum.nan => str "NaN"
  | JNum.num q =>
    let sign : Str := if q < 0 then ['-'] else []
    let n := q.num.natAbs
    let den := q.den
    match decExp den with
    | none => sign ++ natChars n ++ ['/'] ++ natChars den
    | some k =>
      let m := n * Nat.pow 10 k / den
      if k = 0 then sign ++ natChars m
      else sign ++ natChars (m / Nat.pow 10 k) ++ ['.'] ++ padZeros k (natChars (m % Nat.pow 10 k))

/-- JavaScript `toFixed(2)`: round to two decimals (nearest, ties toward
positive infinity, per the ECMA `toFixed` algorithm idealised over exact
rationals) and print with exactly two fractional digits; `NaN` prints as
`"NaN"`. -/
def jsToFixed2 : JNum → Str
  | JNum.nan => str "NaN"
  | JNum.num q =>
    let n : ℤ := Rat.floor (q * 100 + 1 / 2)
    let sign : Str := if n < 0 then ['-'] else []
    let m := n.natAbs
    sign ++ natChars (m / 100) ++ ['.'] ++ padZeros 2 (natChars (m % 100))

/-! ## CSV codec (lines 25-52 of the source) -/

/-- `String.prototype.split` on the two-character separator `"\r\n"`,
as used by `convertCSVStrToArr` (line 26). -/
def splitCRLF : List Char → List (List Char)
  | [] => [[]]
  | [c] => [[c]]
  | c :: c2 :: rest =>
    if c = '\r' ∧ c2 = '\n' then [] :: splitCRLF rest
    else
      let r := splitCRLF (c2 :: rest)
      (c :: r.headD []) :: r.tail

/-- `String.prototype.split` on the separator `","` (line 31). -/
def splitComma : List Char → List (List Char)
  | [] => [[]]
  | c :: rest =>
    let r := splitComma rest
    if c = ',' then [] :: r
    else (c :: r.headD []) :: r.tail

/-- `Array.prototype.join` with the given separator: the concatenation of the
pieces interleaved with the separator, nothing after the last piece.  The
source builds this with an indexed `forEach` that appends the separator after
every piece except the last (lines 46-49). -/
def joinWith (sep : List Char) : List (List Char) → List Char
  | [] => []
  | [x] => x
  | x :: xs => x ++ sep ++ joinWith sep xs

/-- `convertCSVStrToArr` (lines 25-35): split the text on `"\r\n"` into
lines, then each line on `","` into fields. -/
def convertCSVStrToArr (csvStr : Str) : Data :=
  (splitCRLF csvStr).map splitComma

/-- `convertArrayToCSVStr` (lines 42-52): join each row's fields with `","`
and the rows with `"\r\n"`, with no trailing line break. -/
def convertArrayToCSVStr (dataArr : Data) : Str :=
  joinWith ['\r', '\n'] (dataArr.map (joinWith [',']))

/-! ## Currency normalizer (lines 54-78 of the source) -/

/-- `CURRENCY_LOOKUP` (line 18): the static conversion table, a single entry
mapping `$` to the multiplier `0.8` (the exact rational `4/5`; the binary
double `0.8` is idealised as this exact value). -/
def CURRENCY_LOOKUP : Char → Option ℚ := fun c => if c = '$' then some (4 / 5) else none

/-- Property lookup `conversionLookup[CaseValue.slice(0, 1)]` (line 68): the
key is the one-character string holding the case value's first character; an
empty case value gives the key `""`, which is never in the table. -/
def rateFor (conversionLookup : Char → Option ℚ) : Str → Option ℚ
  | [ch] => conversionLookup ch
  | _ => none

/-- The body of the `map` inside `convertCasesToGBP` (lines 63-73).  The
destructuring `[BrokerName, CaseId, CaseValue]` of a row with fewer than
three fields leaves `CaseValue` as `undefined`, and the call
`CaseValue.startsWith("£")` then throws a `TypeError`, modelled as
`Except.error ()`.  A value already starting with `£` returns the row
unchanged; otherwise the numeric remainder (coerced by `*`) is multiplied by
the looked-up rate (`undefined` rate giving `NaN`), passed through
`parseFloat` and `toFixed(2)`, and re-prefixed with `£`. -/
def convertOneCase (conversionLookup : Char → Option ℚ) : Row → Except Unit Row
  | BrokerName :: CaseId :: CaseValue :: rest =>
    if CaseValue.take 1 = ['£'] then Except.ok (BrokerName :: CaseId :: CaseValue :: rest)
    else
      let conversionRate := rateFor conversionLookup (CaseValue.take 1)
      let gbpVal := jsToFixed2 (jsParseFloatNum (jnumMulRate (jsToNumber (CaseValue.drop 1)) conversionRate))
      Except.ok [BrokerName, CaseId, '£' :: gbpVal]
  | _ => Except.error ()

/-- `Array.prototype.map` under possible `TypeError`s: elements are mapped
left to right and the first thrown error aborts the whole call. -/
def mapME (f : Row → Except Unit Row) : List Row → Except Unit (List Row)
  | [] => Except.ok []
  | r :: rs =>
    match f r with
    | Except.error e => Except.error e
    | Except.ok r2 =>
      match mapME f rs with
      | Except.error e => Except.error e
      | Except.ok rs2 => Except.ok (r2 :: rs2)

/-- `convertCasesToGBP` (lines 60-78): keep the header row (`take 1` models
the `brokerCases[0]` / `unshift` pair; for a nonempty input, always the case
for text produced by `convertCSVStrToArr`, this is exactly the source's
behavior) and convert every following row. -/
def convertCasesToGBP (brokerCases : Data) (conversionLookup : Char → Option ℚ) : Except Unit Data := do
  let converted ← mapME (convertOneCase conversionLookup) (brokerCases.drop 1)
  pure (brokerCases.take 1 ++ converted)

/-! ## Commission calculator (lines 3-16 and 88-98 of the source) -/

/-- `BASE_COMMISSION` (line 3). -/
def BASE_COMMISSION : ℚ := 125

/-- `BONUS_AMOUNT` (line 4). -/
def BONUS_AMOUNT : ℚ := 10

/-- `BONUS_TYPE_1` (line 7). -/
def BONUS_TYPE_1 : ℕ := 1

/-- `BONUS_TYPE_2` (line 8). -/
def BONUS_TYPE_2 : ℕ := 2

/-- `THRESHOLD_AMOUNT_1` (line 11). -/
def THRESHOLD_AMOUNT_1 : ℚ := 100000

/-- `THRESHOLD_AMOUNT_2` (line 12). -/
def THRESHOLD_AMOUNT_2 : ℚ := 250000

/-- `TARGET_AMOUNT_1` (line 15). -/
def TARGET_AMOUNT_1 : ℚ := 10000

/-- `TARGET_AMOUNT_2` (line 16). -/
def TARGET_AMOUNT_2 : ℚ := 50000

/-- `bonusCalculator` (lines 88-98): strip the one-character currency prefix
with `substring(1)`, `parseFloat` the remainder, and when the result exceeds
`threshold` pay `BONUS_AMOUNT` per whole `target` above it, using
`parseInt` (truncation) on the quotient.  A `NaN` case value fails the `>`
comparison, so the bonus stays `0`. -/
def bonusCalculator (caseValue : Str) (threshold target : ℚ) : JNum :=
  let caseValueAsFloat := parseFloatChars (caseValue.drop 1)
  if jnumGtQ caseValueAsFloat threshold then
    jnumMulQ (jsParseIntNum (jnumDivQ (jnumSubQ caseValueAsFloat threshold) target)) BONUS_AMOUNT
  else JNum.num 0

/-! ## Per-case report generator (lines 100-144 of the source) -/

/-- The header row unshifted on line 140-141: note that the source always
uses all four column names, whether or not a bonus structure was selected. -/
def jsCommissionHeader : Row :=
  [str "BrokerName", str "CaseId", str "BaseCommission", str "BonusCommission"]

/-- The body of the `map` inside `getCommissionData` (lines 111-137).
`bonusCalculation` is the bonus-structure selector; `0` models a falsy
selector (no bonus structure).  Rows reaching this map always have at least
three fields, because `convertCasesToGBP` already threw on shorter rows; a
shorter row is modelled as a `TypeError` here (in JavaScript a shorter row
with a truthy selector would likewise throw inside `bonusCalculator`, and
with a falsy selector this case is unreachable from the pipeline). -/
def commissionRow (bonusCalculation : ℕ) : Row → Except Unit Row
  | BrokerName :: CaseId :: CaseValue :: _ =>
    let commissionObj := [BrokerName, CaseId, '£' :: jsNumToStr (JNum.num BASE_COMMISSION)]
    if bonusCalculation ≠ 0 then
      let bonus := bonusCalculator CaseValue THRESHOLD_AMOUNT_1 TARGET_AMOUNT_1
      let bonus2 :=
        if bonusCalculation = BONUS_TYPE_2 then
          jnumAdd bonus (bonusCalculator CaseValue THRESHOLD_AMOUNT_2 TARGET_AMOUNT_2)
        else bonus
      Except.ok (commissionObj ++ ['£' :: jsNumToStr bonus2])
    else Except.ok commissionObj
  | _ => Except.error ()

/-- `getCommissionData` (lines 108-144): convert the case values to GBP,
map every data row to a commission row, and unshift the (always
four-column) header. -/
def getCommissionData (brokerCases : Data) (bonusCalculation : ℕ) : Except Unit Data := do
  let gBPBrokerCases ← convertCasesToGBP brokerCases CURRENCY_LOOKUP
  let commisionArr ← mapME (commissionRow bonusCalculation) (gBPBrokerCases.drop 1)
  pure (jsCommissionHeader :: commisionArr)

/-! ## Summary report generator (lines 146-182 of the source) -/

/-- First value stored under key `k` in the insertion-ordered dictionary,
`undefined` (`none`) when absent. -/
def assocFind (acc : List (Str × JNum)) (k : Str) : Option JNum :=
  (acc.find? (fun p => p.1 = k)).map (fun p => p.2)

/-- JavaScript property assignment on the dictionary object: an existing key
keeps its position, a new key is appended. -/
def assocSet : List (Str × JNum) → Str → JNum → List (Str × JNum)
  | [], k, v => [(k, v)]
  | p :: rest, k, v => if p.1 = k then (k, v) :: rest else p :: assocSet rest k v

/-- The body of the `forEach` inside `getCommissionSummaryData` (lines
155-169).  Destructuring a row with fewer than four fields leaves
`BonusCommission` (or `BaseCommission`) as `undefined` and the subsequent
`.substring(1)` throws a `TypeError`, modelled as `Except.error ()`.  The
accumulator is the JavaScript object `summaryObj`, modelled as an
insertion-ordered dictionary; keys colliding with `Object.prototype` members
(such as `hasOwnProperty` itself) behave differently in JavaScript and are
excluded by hypothesis from the theorems below. -/
def summaryStep (acc : List (Str × JNum)) : Row → Except Unit (List (Str × JNum))
  | BrokerName :: _ :: BaseCommission :: BonusCommission :: _ =>
    let currentTotal := (assocFind acc BrokerName).getD (JNum.num 0)
    Except.ok (assocSet acc BrokerName
      (jnumAdd (jnumAdd currentTotal (parseFloatChars (BaseCommission.drop 1)))
        (parseFloatChars (BonusCommission.drop 1))))
  | _ => Except.error ()

/-- `Array.prototype.forEach` accumulating into the dictionary, under
possible `TypeError`s: rows are folded left to right and the first thrown
error aborts the whole call. -/
def foldlME (f : List (Str × JNum) → Row → Except Unit (List (Str × JNum))) :
    List (Str × JNum) → List Row → Except Unit (List (Str × JNum))
  | acc, [] => Except.ok acc
  | acc, r :: rs =>
    match f acc r with
    | Except.error e => Except.error e
    | Except.ok acc2 => foldlME f acc2 rs

/-- Whether a key string is a canonical array index (`"0"`, or digits with no
leading zero, of value below `2 ^ 32 - 1`).  `Object.keys` lists such keys
first, in ascending numeric order, before the remaining string keys in
insertion order (ECMA `OrdinaryOwnPropertyKeys`). -/
def isArrayIndexKey (s : Str) : Bool :=
  (decide (s ≠ []) && s.all isDigitChar) &&
    ((decide (s = ['0']) || decide (s.headD '0' ≠ '0')) && decide (digitsToNat s < 4294967295))

/-- Insert an entry into a list sorted by ascending numeric key value. -/
def insertByIndex (p : Str × JNum) : List (Str × JNum) → List (Str × JNum)
  | [] => [p]
  | q :: rest =>
    if digitsToNat p.1 ≤ digitsToNat q.1 then p :: q :: rest else q :: insertByIndex p rest

/-- The key enumeration order of `Object.keys` (line 174): canonical array
indices first in ascending numeric order, then the other keys in insertion
order. -/
def jsObjectKeys (al : List (Str × JNum)) : List (Str × JNum) :=
  ((al.filter (fun p => isArrayIndexKey p.1)).foldl (fun acc p => insertByIndex p acc) []) ++
    al.filter (fun p => !isArrayIndexKey p.1)

/-- `getCommissionSummaryData` (lines 152-182): fold every data row into the
keyed accumulator, then emit a header and one `[name, "£" + total]` row per
key in `Object.keys` order. -/
def getCommissionSummaryData (brokerCases : Data) : Except Unit Data := do
  let summaryObj ← foldlME summaryStep [] (brokerCases.drop 1)
  pure ([str "BrokerName", str "TotalCommission"] ::
    (jsObjectKeys summaryObj).map (fun kv => [kv.1, '£' :: jsNumToStr kv.2]))

/-! ## Pipeline orchestrator (lines 184-208 of the source) -/

/-- `getCaseCommissionData` (lines 204-208): parse the CSV text, run the
data generator, serialize the result. -/
def getCaseCommissionData (csvStr : Str) (dataGenerator : Data → Except Unit Data) :
    Except Unit Str := do
  let commissionData ← dataGenerator (convertCSVStrToArr csvStr)
  pure (convertArrayToCSVStr commissionData)

/-- `createCommissionCSV` (lines 192-196) with the synchronous whole-file
read and write abstracted to a text-to-text function: the input file's text
is trimmed (`.trim()`, line 193) and handed to `getCaseCommissionData`; the
result is what gets written to the output file. -/
def createCommissionCSV (dataGenerator : Data → Except Unit Data) (inputText : Str) :
    Except Unit Str :=
  getCaseCommissionData (jsTrim inputText) dataGenerator

/-- Reduction of `Except` bind on a success value. -/
theorem except_bind_ok {A B : Type} (a : A) (f : A → Except Unit B) :
    (Except.ok a >>= f : Except Unit B) = f a := rfl

/-! ## Lemmas about the CSV codec -/

theorem splitComma_ne_nil (s : Str) : splitComma s ≠ [] := by
  cases s with
  | nil => simp [splitComma]
  | cons c rest =>
    simp only [splitComma]
    by_cases hc : c = ',' <;> simp [hc]

theorem splitCRLF_ne_nil (s : Str) : splitCRLF s ≠ [] := by
  induction s using splitCRLF.induct with
  | case1 => simp [splitCRLF]
  | case2 c => simp [splitCRLF]
  | case3 c c2 rest h ih => simp [splitCRLF, h]
  | case4 c c2 rest h ih => simp [splitCRLF, h]

theorem joinWith_cons_head (sep : Str) (c : Char) (t : Str) (ts : List Str) :
    joinWith sep ((c :: t) :: ts) = c :: joinWith sep (t :: ts) := by
  cases ts <;> simp [joinWith]

theorem joinComma_splitComma (l : Str) : joinWith [','] (splitComma l) = l := by
  induction l with
  | nil => rfl
  | cons c rest ih =>
    obtain ⟨t, ts, hts⟩ : ∃ t ts, splitComma rest = t :: ts := by
      cases h : splitComma rest with
      | nil => exact absurd h (splitComma_ne_nil rest)
      | cons t ts => exact ⟨t, ts, rfl⟩
    rw [hts] at ih
    by_cases hc : c = ','
    · subst hc
      simp only [splitComma, if_pos rfl, hts]
      show joinWith [','] ([] :: t :: ts) = ',' :: rest
      rw [show joinWith [','] ([] :: t :: ts) = [] ++ [','] ++ joinWith [','] (t :: ts) from rfl]
      simp [ih]
    · simp only [splitComma, if_neg hc, hts]
      show joinWith [','] ((c :: t) :: ts) = c :: rest
      rw [joinWith_cons_head, ih]

theorem joinCRLF_splitCRLF (s : Str) : joinWith ['\r', '\n'] (splitCRLF s) = s := by
  induction s using splitCRLF.induct with
  | case1 => rfl
  | case2 c => rfl
  | case3 c c2 rest h ih =>
    obtain ⟨rfl, rfl⟩ := h
    obtain ⟨t, ts, hts⟩ : ∃ t ts, splitCRLF rest = t :: ts := by
      cases h2 : splitCRLF rest with
      | nil => exact absurd h2 (splitCRLF_ne_nil rest)
      | cons t ts => exact ⟨t, ts, rfl⟩
    rw [hts] at ih
    simp only [splitCRLF, if_pos (And.intro rfl rfl), hts]
    show ['\r', '\n'] ++ joinWith ['\r', '\n'] (t :: ts) = '\r' :: '\n' :: rest
    simp [ih]
  | case4 c c2 rest h ih =>
    obtain ⟨t, ts, hts⟩ : ∃ t ts, splitCRLF (c2 :: rest) = t :: ts := by
      cases h2 : splitCRLF (c2 :: rest) with
      | nil => exact absurd h2 (splitCRLF_ne_nil _)
      | cons t ts => exact ⟨t, ts, rfl⟩
    rw [hts] at ih
    simp only [splitCRLF, if_neg h, hts, List.headD_cons, List.tail_cons]
    rw [joinWith_cons_head, ih]

theorem splitCRLF_append_crlf (s : Str) :
    splitCRLF (s ++ ['\r', '\n']) = splitCRLF s ++ [[]] := by
  induction s using splitCRLF.induct with
  | case1 => rfl
  | case2 c =>
    show splitCRLF (c :: '\r' :: ['\n']) = [[c], []]
    have hne : ¬(c = '\r' ∧ '\r' = '\n') := by simp
    simp [splitCRLF, hne]
  | case3 c c2 rest h ih =>
    obtain ⟨rfl, rfl⟩ := h
    show splitCRLF ('\r' :: '\n' :: (rest ++ ['\r', '\n'])) = _
    simp only [splitCRLF, if_pos (And.intro rfl rfl), ih]
    rfl
  | case4 c c2 rest h ih =>
    obtain ⟨t, ts, hts⟩ : ∃ t ts, splitCRLF (c2 :: rest) = t :: ts := by
      cases h2 : splitCRLF (c2 :: rest) with
      | nil => exact absurd h2 (splitCRLF_ne_nil _)
      | cons t ts => exact ⟨t, ts, rfl⟩
    rw [hts] at ih
    show splitCRLF (c :: c2 :: (rest ++ ['\r', '\n'])) = _
    have hstep : splitCRLF (c2 :: (rest ++ ['\r', '\n'])) = t :: (ts ++ [[]]) := by
      have h3 : c2 :: (rest ++ ['\r', '\n']) = (c2 :: rest) ++ ['\r', '\n'] := rfl
      rw [h3, ih]
      rfl
    simp only [splitCRLF, if_neg h, hstep, hts, List.headD_cons, List.tail_cons]
    rfl

theorem dropWhile_isJSSpace_crlf_reverse (X : Str) :
    List.dropWhile isJSSpace (List.reverse (X ++ ['\r', '\n'])) =
      List.dropWhile isJSSpace (List.reverse X) := by
  rw [List.reverse_append]
  show List.dropWhile isJSSpace ('\n' :: '\r' :: X.reverse) = _
  simp [List.dropWhile, isJSSpace]

theorem jsTrim_append_crlf (T : Str) : jsTrim (T ++ ['\r', '\n']) = jsTrim T := by
  unfold jsTrim
  rw [List.dropWhile_append]
  rcases h : (T.dropWhile isJSSpace).isEmpty with _ | _
  · simp only [h, if_neg Bool.false_ne_true, Bool.false_eq_true, if_false]
    rw [dropWhile_isJSSpace_crlf_reverse]
  · have hT : T.dropWhile isJSSpace = [] := by
      cases h2 : T.dropWhile isJSSpace with
      | nil => rfl
      | cons a as => rw [h2] at h; simp at h
    simp only [h, if_true, hT]
    rfl

/-- Claim C4: serializing the result of parsing returns the text exactly,
with no trailing line break appended.  The round trip
`convertArrayToCSVStr (convertCSVStrToArr T) = T` in fact holds for every
text `T`, in particular for the claimed class of texts with no commas or
line breaks embedded inside a field and `CRLF` line breaks. -/
theorem csv_parse_serialize_roundtrip (T : Str) :
    convertArrayToCSVStr (convertCSVStrToArr T) = T := by
  unfold convertCSVStrToArr convertArrayToCSVStr
  rw [List.map_map]
  have h : (splitCRLF T).map (joinWith [','] ∘ splitComma) = (splitCRLF T).map id := by
    apply List.map_congr_left
    intro l _
    exact joinComma_splitComma l
  rw [h, List.map_id, joinCRLF_splitCRLF]

/-- Claim C10: `createCommissionCSV` trims the input text before parsing, so
a trailing line break never produces an extra empty data row (first
conjunct); the pure pipeline `getCaseCommissionData` performs no such
trimming: parsing a text ending in `CRLF` yields an extra final row of one
empty field (second conjunct), and that extra row is exactly what the data
generator receives (third conjunct). -/
theorem createCommissionCSV_trims_trailing_crlf :
    (∀ (dataGenerator : Data → Except Unit Data) (T : Str),
        createCommissionCSV dataGenerator (T ++ ['\r', '\n']) =
          createCommissionCSV dataGenerator T) ∧
    (∀ T : Str, convertCSVStrToArr (T ++ ['\r', '\n']) = convertCSVStrToArr T ++ [[[]]]) ∧
    (∀ (dataGenerator : Data → Except Unit Data) (T : Str),
        getCaseCommissionData (T ++ ['\r', '\n']) dataGenerator =
          match dataGenerator (convertCSVStrToArr T ++ [[[]]]) with
          | Except.error e => Except.error e
          | Except.ok d => Except.ok (convertArrayToCSVStr d)) := by
  have h2 : ∀ T : Str, convertCSVStrToArr (T ++ ['\r', '\n']) = convertCSVStrToArr T ++ [[[]]] := by
    intro T
    unfold convertCSVStrToArr
    rw [splitCRLF_append_crlf, List.map_append]
    rfl
  refine ⟨?_, h2, ?_⟩
  · intro dataGenerator T
    unfold createCommissionCSV
    rw [jsTrim_append_crlf]
  · intro dataGenerator T
    unfold getCaseCommissionData
    rw [h2]
    cases dataGenerator (convertCSVStrToArr T ++ [[[]]]) <;> rfl

/-! ## Claims about the bonus calculator -/

/-- Claim C1: for a case value whose numeric magnitude (after stripping the
one-character currency prefix) is `m`, the bonus is `0` whenever
`m ≤ threshold`, and `floor ((m - threshold) / target) * 10` whenever
`m > threshold`: bonus accrues only per whole multiple of `target` above
`threshold`, with no pro-rata fraction.  (`0 < target` holds for both bonus
structures; with a zero target the claimed floor expression would be
meaningless and the code returns `NaN`.) -/
theorem bonusCalculator_threshold_floor (caseValue : Str) (threshold target m : ℚ)
    (hm : parseFloatChars (caseValue.drop 1) = JNum.num m) (ht : 0 < target) :
    (m ≤ threshold → bonusCalculator caseValue threshold target = JNum.num 0) ∧
    (threshold < m →
      bonusCalculator caseValue threshold target =
        JNum.num ((Rat.floor ((m - threshold) / target) : ℚ) * 10)) := by
  constructor
  · intro hle
    unfold bonusCalculator
    rw [hm]
    have hg : jnumGtQ (JNum.num m) threshold = false := by
      simp [jnumGtQ, not_lt.mpr hle]
    simp [hg]
  · intro hgt
    unfold bonusCalculator
    rw [hm]
    have hg : jnumGtQ (JNum.num m) threshold = true := by simp [jnumGtQ, hgt]
    have hne : target ≠ 0 := ne_of_gt ht
    have hqpos : (0 : ℚ) < (m - threshold) / target := div_pos (by linarith) ht
    have h1 : ¬((m - threshold) / target < 0) := not_lt.mpr (le_of_lt hqpos)
    simp [hg, jnumSubQ, jnumDivQ, jsParseIntNum, jsTrunc, jnumMulQ, BONUS_AMOUNT, hne, h1]

attribute [local semireducible] Rat.add Rat.sub Rat.mul Rat.inv Rat.ofScientific in
theorem bonusCalculator_threshold_floor_witness :
    parseFloatChars ((str "£110000.00").drop 1) = JNum.num 110000 ∧ (0 : ℚ) < 10000 ∧
      bonusCalculator (str "£110000.00") 100000 10000 = JNum.num 10 := by
  have hm : parseFloatChars ((str "£110000.00").drop 1) = JNum.num 110000 := by decide
  have ht : (0 : ℚ) < 10000 := by norm_num
  refine ⟨hm, ht, ?_⟩
  have h := (bonusCalculator_threshold_floor (str "£110000.00") 100000 10000 110000 hm ht).2
    (by norm_num)
  rw [h]
  decide

/-! ## Lemmas about the currency normalizer and per-case report -/

/-- The converted third field produced by the else-branch of
`convertOneCase`. -/
def gbpField (conversionLookup : Char → Option ℚ) (v : Str) : Str :=
  '£' :: jsToFixed2 (jsParseFloatNum (jnumMulRate (jsToNumber (v.drop 1))
    (rateFor conversionLookup (v.take 1))))

/-- The pure result of `convertOneCase` on a row with at least three
fields (where no `TypeError` is possible). -/
def convertCaseOk (conversionLookup : Char → Option ℚ) (r : Row) : Row :=
  let v := (r.drop 2).headD []
  if v.take 1 = ['£'] then r
  else [r.headD [], (r.drop 1).headD [], gbpField conversionLookup v]

theorem convertOneCase_eq_ok (lookup : Char → Option ℚ) (b c v : Str) (rest : Row) :
    convertOneCase lookup (b :: c :: v :: rest) =
      Except.ok (convertCaseOk lookup (b :: c :: v :: rest)) := by
  by_cases h : v.take 1 = ['£'] <;>
    simp [convertOneCase, convertCaseOk, gbpField, h]

theorem mapME_ok (f : Row → Except Unit Row) (g : Row → Row) :
    ∀ rows : List Row, (∀ r ∈ rows, f r = Except.ok (g r)) →
      mapME f rows = Except.ok (rows.map g) := by
  intro rows
  induction rows with
  | nil => intro _; rfl
  | cons r rs ih =>
    intro h
    have hr : f r = Except.ok (g r) := h r (List.mem_cons_self r rs)
    have hrs : mapME f rs = Except.ok (rs.map g) :=
      ih (fun x hx => h x (List.mem_cons_of_mem r hx))
    simp [mapME, hr, hrs]

/-- Destructure a row known to have at least three fields. -/
theorem row_shape_of_three_le (r : Row) (h : 3 ≤ r.length) :
    ∃ b c v rest, r = b :: c :: v :: rest := by
  match r with
  | [] => simp at h
  | [b] => simp at h
  | [b, c] => simp at h
  | b :: c :: v :: rest => exact ⟨b, c, v, rest, rfl⟩

theorem convertCasesToGBP_ok (lookup : Char → Option ℚ) (header : Row) (rows : Data)
    (h3 : ∀ r ∈ rows, 3 ≤ r.length) :
    convertCasesToGBP (header :: rows) lookup =
      Except.ok (header :: rows.map (convertCaseOk lookup)) := by
  unfold convertCasesToGBP
  have hmap : mapME (convertOneCase lookup) ((header :: rows).drop 1) =
      Except.ok (rows.map (convertCaseOk lookup)) := by
    rw [show (header :: rows).drop 1 = rows from rfl]
    apply mapME_ok
    intro r hr
    obtain ⟨b, c, v, rest, rfl⟩ := row_shape_of_three_le r (h3 r hr)
    exact convertOneCase_eq_ok lookup b c v rest
  rw [hmap]
  rfl

theorem convertCaseOk_shape (lookup : Char → Option ℚ) (b c v : Str) (rest : Row) :
    ∃ v2 rest2, convertCaseOk lookup (b :: c :: v :: rest) = b :: c :: v2 :: rest2 := by
  by_cases h : v.take 1 = ['£'] <;> simp [convertCaseOk, h]

/-- The bonus value computed inside `getCommissionData`'s map for a truthy
selector: structure 1's bonus, plus structure 2's bonus when the selector
is `BONUS_TYPE_2`, both on the same (converted) case value. -/
def commissionBonus (bonusCalculation : ℕ) (v : Str) : JNum :=
  let bonus := bonusCalculator v THRESHOLD_AMOUNT_1 TARGET_AMOUNT_1
  if bonusCalculation = BONUS_TYPE_2 then
    jnumAdd bonus (bonusCalculator v THRESHOLD_AMOUNT_2 TARGET_AMOUNT_2)
  else bonus

/-- The pure result of `commissionRow` on a row with at least three
fields. -/
def commissionRowOk (bonusCalculation : ℕ) (r : Row) : Row :=
  let base := [r.headD [], (r.drop 1).headD [], '£' :: jsNumToStr (JNum.num BASE_COMMISSION)]
  if bonusCalculation ≠ 0 then
    base ++ ['£' :: jsNumToStr (commissionBonus bonusCalculation ((r.drop 2).headD []))]
  else base

theorem commissionRow_eq_ok (sel : ℕ) (b c v : Str) (rest : Row) :
    commissionRow sel (b :: c :: v :: rest) =
      Except.ok (commissionRowOk sel (b :: c :: v :: rest)) := by
  by_cases h0 : sel = 0
  · subst h0
    simp [commissionRow, commissionRowOk]
  · by_cases h2 : sel = BONUS_TYPE_2 <;>
      simp [commissionRow, commissionRowOk, commissionBonus, h0, h2, BONUS_TYPE_2]

theorem getCommissionData_ok (header : Row) (rows : Data) (sel : ℕ)
    (h3 : ∀ r ∈ rows, 3 ≤ r.length) :
    getCommissionData (header :: rows) sel =
      Except.ok (jsCommissionHeader ::
        rows.map (fun r => commissionRowOk sel (convertCaseOk CURRENCY_LOOKUP r))) := by
  unfold getCommissionData
  have hmap : mapME (commissionRow sel) ((header :: rows.map (convertCaseOk CURRENCY_LOOKUP)).drop 1) =
      Except.ok ((rows.map (convertCaseOk CURRENCY_LOOKUP)).map (commissionRowOk sel)) := by
    rw [show (header :: rows.map (convertCaseOk CURRENCY_LOOKUP)).drop 1 =
        rows.map (convertCaseOk CURRENCY_LOOKUP) from rfl]
    apply mapME_ok
    intro r2 hr2
    obtain ⟨r, hr, rfl⟩ := List.mem_map.mp hr2
    obtain ⟨b, c, v, rest, rfl⟩ := row_shape_of_three_le r (h3 r hr)
    obtain ⟨v2, rest2, hshape⟩ := convertCaseOk_shape CURRENCY_LOOKUP b c v rest
    rw [hshape]
    exact commissionRow_eq_ok sel b c v2 rest2
  rw [convertCasesToGBP_ok CURRENCY_LOOKUP header rows h3]
  simp only [except_bind_ok]
  rw [hmap]
  simp only [except_bind_ok, List.map_map]
  rfl

/-! ## Claims about the currency normalizer -/

attribute [local semireducible] Rat.add Rat.sub Rat.mul Rat.inv Rat.ofScientific in
/-- Claim C3: a non-header row whose CaseValue already starts with the
reporting symbol `£` passes through the normalizer unchanged; otherwise the
numeric remainder is multiplied by the lookup multiplier for the value's
first character, rounded to 2 decimal places (`toFixed(2)` semantics,
rendered by `jsToFixed2`), and re-prefixed with `£`; in particular
`$100.00` under the lookup mapping `$` to `0.8` yields `£80.00`. -/
theorem convertCasesToGBP_normalizes (header : Row) (rows : Data)
    (h3 : ∀ r ∈ rows, 3 ≤ r.length) :
    convertCasesToGBP (header :: rows) CURRENCY_LOOKUP =
      Except.ok (header :: rows.map (convertCaseOk CURRENCY_LOOKUP)) ∧
    (∀ (b c v : Str) (rest : Row), v.take 1 = ['£'] →
      convertCaseOk CURRENCY_LOOKUP (b :: c :: v :: rest) = b :: c :: v :: rest) ∧
    (∀ (b c v : Str) (rest : Row) (ch : Char) (rate : ℚ),
      v.take 1 = [ch] → ch ≠ '£' → CURRENCY_LOOKUP ch = some rate →
      convertCaseOk CURRENCY_LOOKUP (b :: c :: v :: rest) =
        [b, c, '£' :: jsToFixed2 (jnumMul (jsToNumber (v.drop 1)) (JNum.num rate))]) ∧
    convertCaseOk CURRENCY_LOOKUP [str "X", str "1", str "$100.00"] =
      [str "X", str "1", str "£80.00"] := by
  refine ⟨convertCasesToGBP_ok CURRENCY_LOOKUP header rows h3, ?_, ?_, ?_⟩
  · intro b c v rest h
    simp [convertCaseOk, h]
  · intro b c v rest ch rate hch hne hrate
    have hpound : ¬(v.take 1 = ['£']) := by
      rw [hch]
      simp [hne]
    unfold convertCaseOk
    rw [show (((b :: c :: v :: rest) : Row).drop 2).headD [] = v from rfl, if_neg hpound]
    unfold gbpField
    rw [hch, show rateFor CURRENCY_LOOKUP [ch] = CURRENCY_LOOKUP ch from rfl, hrate]
    rfl
  · have hpound : ¬((str "$100.00").take 1 = ['£']) := by decide
    unfold convertCaseOk
    rw [show ((([str "X", str "1", str "$100.00"]) : Row).drop 2).headD [] = str "$100.00" from rfl,
      if_neg hpound]
    decide

attribute [local semireducible] Rat.add Rat.sub Rat.mul Rat.inv Rat.ofScientific in
theorem convertCasesToGBP_normalizes_witness :
    (∀ r ∈ [[str "X", str "1", str "$100.00"], [str "Y", str "2", str "£250.00"]],
      3 ≤ List.length r) ∧
    convertCasesToGBP [[str "BrokerName", str "CaseId", str "CaseValue"],
        [str "X", str "1", str "$100.00"], [str "Y", str "2", str "£250.00"]] CURRENCY_LOOKUP =
      Except.ok [[str "BrokerName", str "CaseId", str "CaseValue"],
        [str "X", str "1", str "£80.00"], [str "Y", str "2", str "£250.00"]] := by
  have h3 : ∀ r ∈ [[str "X", str "1", str "$100.00"], [str "Y", str "2", str "£250.00"]],
      3 ≤ List.length r := by decide
  refine ⟨h3, ?_⟩
  rw [(convertCasesToGBP_normalizes [str "BrokerName", str "CaseId", str "CaseValue"] _ h3).1]
  decide

/-- Claim C7: a non-header row whose currency symbol is absent from the
lookup table does not abort the run: conversion succeeds for the whole
table, and such a row is emitted with the non-numeric monetary value
`£NaN` in place of the converted amount, while all other rows are
processed normally. -/
theorem convertCasesToGBP_unknown_symbol (header : Row) (rows : Data)
    (h3 : ∀ r ∈ rows, 3 ≤ r.length) :
    convertCasesToGBP (header :: rows) CURRENCY_LOOKUP =
      Except.ok (header :: rows.map (convertCaseOk CURRENCY_LOOKUP)) ∧
    (∀ (b c v : Str) (rest : Row) (ch : Char),
      v.take 1 = [ch] → ch ≠ '£' → CURRENCY_LOOKUP ch = none →
      convertCaseOk CURRENCY_LOOKUP (b :: c :: v :: rest) = [b, c, str "£NaN"]) := by
  refine ⟨convertCasesToGBP_ok CURRENCY_LOOKUP header rows h3, ?_⟩
  intro b c v rest ch hch hne hrate
  have hpound : ¬(v.take 1 = ['£']) := by
    rw [hch]
    simp [hne]
  unfold convertCaseOk
  rw [show (((b :: c :: v :: rest) : Row).drop 2).headD [] = v from rfl, if_neg hpound]
  unfold gbpField
  rw [hch, show rateFor CURRENCY_LOOKUP [ch] = CURRENCY_LOOKUP ch from rfl, hrate]
  rfl

attribute [local semireducible] Rat.add Rat.sub Rat.mul Rat.inv Rat.ofScientific in
theorem convertCasesToGBP_unknown_symbol_witness :
    (∀ r ∈ [[str "A", str "1", str "€50.00"], [str "B", str "2", str "$100.00"]],
      3 ≤ List.length r) ∧
    convertCasesToGBP [[str "BrokerName", str "CaseId", str "CaseValue"],
        [str "A", str "1", str "€50.00"], [str "B", str "2", str "$100.00"]] CURRENCY_LOOKUP =
      Except.ok [[str "BrokerName", str "CaseId", str "CaseValue"],
        [str "A", str "1", str "£NaN"], [str "B", str "2", str "£80.00"]] := by
  have h3 : ∀ r ∈ [[str "A", str "1", str "€50.00"], [str "B", str "2", str "$100.00"]],
      3 ≤ List.length r := by decide
  refine ⟨h3, ?_⟩
  rw [(convertCasesToGBP_unknown_symbol [str "BrokerName", str "CaseId", str "CaseValue"] _ h3).1]
  decide

/-! ## Claims about the per-case commission report -/

attribute [local semireducible] Rat.add Rat.sub Rat.mul Rat.inv Rat.ofScientific in
/-- Claim C2: under Structure 2 the bonus of every case row equals the
Structure-1 bonus (threshold 100000, target 10000) plus the Structure-2
bonus (threshold 250000, target 50000), both computed independently on the
same full (converted) case value and summed; in particular for case value
`£310000.00` the total Structure-2 bonus is `220`. -/
theorem getCommissionData_structure2_sum (header : Row) (rows : Data)
    (h3 : ∀ r ∈ rows, 3 ≤ r.length) :
    getCommissionData (header :: rows) BONUS_TYPE_2 =
      Except.ok (jsCommissionHeader :: rows.map (fun r =>
        [(convertCaseOk CURRENCY_LOOKUP r).headD [],
          ((convertCaseOk CURRENCY_LOOKUP r).drop 1).headD [],
          '£' :: jsNumToStr (JNum.num BASE_COMMISSION),
          '£' :: jsNumToStr (jnumAdd
            (bonusCalculator (((convertCaseOk CURRENCY_LOOKUP r).drop 2).headD [])
              THRESHOLD_AMOUNT_1 TARGET_AMOUNT_1)
            (bonusCalculator (((convertCaseOk CURRENCY_LOOKUP r).drop 2).headD [])
              THRESHOLD_AMOUNT_2 TARGET_AMOUNT_2))])) ∧
    jnumAdd (bonusCalculator (str "£310000.00") THRESHOLD_AMOUNT_1 TARGET_AMOUNT_1)
        (bonusCalculator (str "£310000.00") THRESHOLD_AMOUNT_2 TARGET_AMOUNT_2) =
      JNum.num 220 := by
  constructor
  · rw [getCommissionData_ok header rows BONUS_TYPE_2 h3]
    have hrow : ∀ r ∈ rows,
        commissionRowOk BONUS_TYPE_2 (convertCaseOk CURRENCY_LOOKUP r) =
          [(convertCaseOk CURRENCY_LOOKUP r).headD [],
            ((convertCaseOk CURRENCY_LOOKUP r).drop 1).headD [],
            '£' :: jsNumToStr (JNum.num BASE_COMMISSION),
            '£' :: jsNumToStr (jnumAdd
              (bonusCalculator (((convertCaseOk CURRENCY_LOOKUP r).drop 2).headD [])
                THRESHOLD_AMOUNT_1 TARGET_AMOUNT_1)
              (bonusCalculator (((convertCaseOk CURRENCY_LOOKUP r).drop 2).headD [])
                THRESHOLD_AMOUNT_2 TARGET_AMOUNT_2))] := by
      intro r hr
      simp [commissionRowOk, commissionBonus, BONUS_TYPE_2]
    rw [List.map_congr_left hrow]
  · decide

attribute [local semireducible] Rat.add Rat.sub Rat.mul Rat.inv Rat.ofScientific in
theorem getCommissionData_structure2_sum_witness :
    (∀ r ∈ [[str "A", str "1", str "£310000.00"]], 3 ≤ List.length r) ∧
    getCommissionData [[str "BrokerName", str "CaseId", str "CaseValue"],
        [str "A", str "1", str "£310000.00"]] BONUS_TYPE_2 =
      Except.ok [[str "BrokerName", str "CaseId", str "BaseCommission", str "BonusCommission"],
        [str "A", str "1", str "£125", str "£220"]] := by
  have h3 : ∀ r ∈ [[str "A", str "1", str "£310000.00"]], 3 ≤ List.length r := by decide
  refine ⟨h3, ?_⟩
  rw [(getCommissionData_structure2_sum [str "BrokerName", str "CaseId", str "CaseValue"] _ h3).1]
  decide

/-- A demonstration input for the no-bonus report: one well-formed case row
already in the reporting currency. -/
def noBonusDemoInput : Data :=
  [[str "BrokerName", str "CaseId", str "CaseValue"], [str "A", str "1", str "£50.00"]]

attribute [local semireducible] Rat.add Rat.sub Rat.mul Rat.inv Rat.ofScientific in
/-- Claim C6 is false as stated: with no bonus structure selected the data
rows do have exactly the three columns BrokerName, CaseId, BaseCommission,
but the header row is NOT three columns — lines 140-141 of the source
always unshift the full four-column header including `BonusCommission`.
At this concrete input the emitted header has four columns, not three. -/
theorem getCommissionData_noBonus_counterexample :
    getCommissionData noBonusDemoInput 0 =
      Except.ok [[str "BrokerName", str "CaseId", str "BaseCommission", str "BonusCommission"],
        [str "A", str "1", str "£125"]] ∧
    ¬(([str "BrokerName", str "CaseId", str "BaseCommission", str "BonusCommission"] : Row).length
        = 3) := by
  constructor
  · decide
  · decide

attribute [local semireducible] Rat.add Rat.sub Rat.mul Rat.inv Rat.ofScientific in
/-- Claim C6, amended: when no bonus structure is selected (falsy selector),
every emitted data row has exactly the three columns BrokerName, CaseId,
BaseCommission — the bonus value is present only when a structure is
requested — but the header row always carries all four column names,
`BonusCommission` included, regardless of the selector. -/
theorem getCommissionData_noBonus (header : Row) (rows : Data)
    (h3 : ∀ r ∈ rows, 3 ≤ r.length) :
    getCommissionData (header :: rows) 0 =
      Except.ok (jsCommissionHeader :: rows.map (fun r =>
        [(convertCaseOk CURRENCY_LOOKUP r).headD [],
          ((convertCaseOk CURRENCY_LOOKUP r).drop 1).headD [],
          '£' :: jsNumToStr (JNum.num BASE_COMMISSION)])) ∧
    jsCommissionHeader =
      [str "BrokerName", str "CaseId", str "BaseCommission", str "BonusCommission"] ∧
    jsCommissionHeader.length = 4 := by
  refine ⟨?_, rfl, rfl⟩
  rw [getCommissionData_ok header rows 0 h3]
  have hrow : ∀ r ∈ rows,
      commissionRowOk 0 (convertCaseOk CURRENCY_LOOKUP r) =
        [(convertCaseOk CURRENCY_LOOKUP r).headD [],
          ((convertCaseOk CURRENCY_LOOKUP r).drop 1).headD [],
          '£' :: jsNumToStr (JNum.num BASE_COMMISSION)] := by
    intro r hr
    simp [commissionRowOk]
  rw [List.map_congr_left hrow]

attribute [local semireducible] Rat.add Rat.sub Rat.mul Rat.inv Rat.ofScientific in
theorem getCommissionData_noBonus_witness :
    (∀ r ∈ [[str "A", str "1", str "£50.00"]], 3 ≤ List.length r) ∧
    getCommissionData noBonusDemoInput 0 =
      Except.ok [[str "BrokerName", str "CaseId", str "BaseCommission", str "BonusCommission"],
        [str "A", str "1", str "£125"]] := by
  have h3 : ∀ r ∈ [[str "A", str "1", str "£50.00"]], 3 ≤ List.length r := by decide
  refine ⟨h3, ?_⟩
  rw [show noBonusDemoInput =
    [str "BrokerName", str "CaseId", str "CaseValue"] :: [[str "A", str "1", str "£50.00"]] from rfl]
  rw [(getCommissionData_noBonus [str "BrokerName", str "CaseId", str "CaseValue"] _ h3).1]
  decide

/-- `Forall₂` between a list and its image under a map, from a pointwise
fact. -/
theorem forall₂_map_self {P : Row → Row → Prop} (f : Row → Row) :
    ∀ rows : Data, (∀ r ∈ rows, P r (f r)) → List.Forall₂ P rows (rows.map f) := by
  intro rows
  induction rows with
  | nil => intro _; exact List.Forall₂.nil
  | cons r rs ih =>
    intro h
    exact List.Forall₂.cons (h r (List.mem_cons_self r rs))
      (ih (fun x hx => h x (List.mem_cons_of_mem r hx)))

theorem commissionRowOk_take_two (sel : ℕ) (lookup : Char → Option ℚ) (b c v : Str) (rest : Row) :
    (commissionRowOk sel (convertCaseOk lookup (b :: c :: v :: rest))).take 2 = [b, c] := by
  obtain ⟨v2, rest2, hshape⟩ := convertCaseOk_shape lookup b c v rest
  rw [hshape]
  by_cases h0 : sel = 0 <;> simp [commissionRowOk, h0]

/-- Claim C9: the per-case report has exactly one output data row per input
data row, in the same order, and output row `i` carries the same BrokerName
and CaseId (the first two fields) as input row `i`. -/
theorem getCommissionData_preserves_rows (header : Row) (rows : Data) (sel : ℕ)
    (h3 : ∀ r ∈ rows, r.length = 3) :
    ∃ outRows, getCommissionData (header :: rows) sel =
        Except.ok (jsCommissionHeader :: outRows) ∧
      outRows.length = rows.length ∧
      List.Forall₂ (fun inR outR => outR.take 2 = inR.take 2) rows outRows := by
  have h3le : ∀ r ∈ rows, 3 ≤ r.length := fun r hr => le_of_eq (h3 r hr).symm
  refine ⟨_, getCommissionData_ok header rows sel h3le, by simp, ?_⟩
  apply forall₂_map_self
  intro r hr
  obtain ⟨b, c, v, rest, rfl⟩ := row_shape_of_three_le r (h3le r hr)
  rw [commissionRowOk_take_two]
  rfl

attribute [local semireducible] Rat.add Rat.sub Rat.mul Rat.inv Rat.ofScientific in
theorem getCommissionData_preserves_rows_witness :
    (∀ r ∈ [[str "A", str "1", str "$100.00"], [str "B", str "2", str "£250.00"]],
      List.length r = 3) ∧
    getCommissionData [[str "BrokerName", str "CaseId", str "CaseValue"],
        [str "A", str "1", str "$100.00"], [str "B", str "2", str "£250.00"]] BONUS_TYPE_1 =
      Except.ok [[str "BrokerName", str "CaseId", str "BaseCommission", str "BonusCommission"],
        [str "A", str "1", str "£125", str "£0"], [str "B", str "2", str "£125", str "£0"]] ∧
    List.Forall₂ (fun inR outR : Row => outR.take 2 = inR.take 2)
      [[str "A", str "1", str "$100.00"], [str "B", str "2", str "£250.00"]]
      [[str "A", str "1", str "£125", str "£0"], [str "B", str "2", str "£125", str "£0"]] := by
  have h3 : ∀ r ∈ [[str "A", str "1", str "$100.00"], [str "B", str "2", str "£250.00"]],
      List.length r = 3 := by decide
  obtain ⟨outRows, hout, hlen, hfa⟩ :=
    getCommissionData_preserves_rows [str "BrokerName", str "CaseId", str "CaseValue"]
      [[str "A", str "1", str "$100.00"], [str "B", str "2", str "£250.00"]] BONUS_TYPE_1 h3
  have houtval : outRows =
      [[str "A", str "1", str "£125", str "£0"], [str "B", str "2", str "£125", str "£0"]] := by
    have h3le : ∀ r ∈ [[str "A", str "1", str "$100.00"], [str "B", str "2", str "£250.00"]],
        3 ≤ List.length r := by decide
    have := getCommissionData_ok [str "BrokerName", str "CaseId", str "CaseValue"]
      [[str "A", str "1", str "$100.00"], [str "B", str "2", str "£250.00"]] BONUS_TYPE_1 h3le
    rw [this] at hout
    have hcons := Except.ok.inj hout
    have := List.tail_eq_of_cons_eq hcons
    rw [← this]
    decide
  refine ⟨h3, ?_, ?_⟩
  · rw [hout, houtval]
    rfl
  · rw [← houtval]
    exact hfa

/-! ## Claims about the summary report generator -/

theorem summaryStep_error_of_short (acc : List (Str × JNum)) (r : Row) (h : r.length < 4) :
    summaryStep acc r = Except.error () := by
  match r with
  | [] => rfl
  | [a] => rfl
  | [a, b] => rfl
  | [a, b, c] => rfl
  | a :: b :: c :: d :: rest =>
    simp at h
    omega

theorem foldlME_error_of_mem_short :
    ∀ (rows : List Row) (acc : List (Str × JNum)) (r : Row), r ∈ rows → r.length < 4 →
      foldlME summaryStep acc rows = Except.error () := by
  intro rows
  induction rows with
  | nil =>
    intro acc r hr
    simp at hr
  | cons r0 rs ih =>
    intro acc r hr hlen
    rcases List.mem_cons.mp hr with h | h
    · subst h
      rw [foldlME, summaryStep_error_of_short acc r hlen]
    · cases hstep : summaryStep acc r0 with
      | error e => rw [foldlME, hstep]
      | ok acc2 =>
        rw [foldlME, hstep]
        exact ih acc2 r h hlen

/-- A commission report missing the bonus column: three-field data rows. -/
def summaryShortDemo : Data :=
  [[str "BrokerName", str "CaseId", str "BaseCommission"], [str "Alice", str "1", str "£125"]]

/-- Claim C8 is false as stated: running the summary generator on a report
whose data rows lack a bonus column does NOT run to completion — the
destructured `BonusCommission` is `undefined` and `.substring(1)` on it
throws a `TypeError` (line 168 of the source), aborting the run instead of
producing garbage output.  At this concrete three-column input the call
throws. -/
theorem getCommissionSummaryData_short_row_counterexample :
    getCommissionSummaryData summaryShortDemo = Except.error () := by decide

/-- Claim C8, amended: running the summary generator on a commission report
containing any data row with fewer than four fields does not produce
garbage output — it throws a `TypeError` (from `undefined.substring(1)`)
and aborts the whole run. -/
theorem getCommissionSummaryData_short_row_throws (header : Row) (rows : Data) (r : Row)
    (hmem : r ∈ rows) (hlen : r.length < 4) :
    getCommissionSummaryData (header :: rows) = Except.error () := by
  unfold getCommissionSummaryData
  rw [show (header :: rows).drop 1 = rows from rfl]
  rw [foldlME_error_of_mem_short rows [] r hmem hlen]
  rfl

theorem getCommissionSummaryData_short_row_throws_witness :
    (([str "Bob", str "2", str "£125"] : Row) ∈
      ([[str "Alice", str "1", str "£125", str "£10"], [str "Bob", str "2", str "£125"]] : Data)) ∧
    (([str "Bob", str "2", str "£125"] : Row).length < 4) ∧
    getCommissionSummaryData
        ([str "BrokerName", str "CaseId", str "BaseCommission", str "BonusCommission"] ::
          [[str "Alice", str "1", str "£125", str "£10"], [str "Bob", str "2", str "£125"]]) =
      Except.error () := by
  refine ⟨by decide, by decide, ?_⟩
  exact getCommissionSummaryData_short_row_throws
    [str "BrokerName", str "CaseId", str "BaseCommission", str "BonusCommission"]
    [[str "Alice", str "1", str "£125", str "£10"], [str "Bob", str "2", str "£125"]]
    [str "Bob", str "2", str "£125"] (by decide) (by decide)

/-! ## Grouping characterization of the summary generator -/

/-- One step of first-seen name collection. -/
def nameStep (acc : List Str) (r : Row) : List Str :=
  if r.headD [] ∈ acc then acc else acc ++ [r.headD []]

/-- The distinct broker names of the data rows, in first-seen order. -/
def firstSeenNames (rows : Data) : List Str := rows.foldl nameStep []

/-- The parsed base-commission value of a row (third field, prefix
stripped). -/
def rowBase (r : Row) : JNum := parseFloatChars (((r.drop 2).headD []).drop 1)

/-- The parsed bonus-commission value of a row (fourth field, prefix
stripped). -/
def rowBonus (r : Row) : JNum := parseFloatChars (((r.drop 3).headD []).drop 1)

/-- One step of total accumulation for broker `b`, in the exact association
order of the source (current total, plus base, plus bonus). -/
def totalStep (b : Str) (t : JNum) (r : Row) : JNum :=
  if r.headD [] = b then jnumAdd (jnumAdd t (rowBase r)) (rowBonus r) else t

/-- The accumulated total of broker `b` over the data rows. -/
def brokerTotal (rows : Data) (b : Str) : JNum := rows.foldl (totalStep b) (JNum.num 0)

/-- The sum, over broker `b`'s rows, of `baseCommission + bonusCommission` —
the spec's wording of the total. -/
def specBrokerSum (rows : Data) (b : Str) : JNum :=
  ((rows.filter (fun r => r.headD [] = b)).map
    (fun r => jnumAdd (rowBase r) (rowBonus r))).foldl jnumAdd (JNum.num 0)

/-- The canonical value of the summary accumulator after processing
`rows`: one entry per first-seen broker name, holding that broker's
accumulated total. -/
def summaryCanon (rows : Data) : List (Str × JNum) :=
  (firstSeenNames rows).map (fun b => (b, brokerTotal rows b))

theorem jnumAdd_assoc (x y z : JNum) :
    jnumAdd (jnumAdd x y) z = jnumAdd x (jnumAdd y z) := by
  cases x <;> cases y <;> cases z <;> simp [jnumAdd, add_assoc]

theorem mem_foldl_nameStep (rows : Data) :
    ∀ (acc : List Str) (x : Str),
      x ∈ rows.foldl nameStep acc ↔ x ∈ acc ∨ x ∈ rows.map (fun r => r.headD []) := by
  induction rows with
  | nil =>
    intro acc x
    simp
  | cons r rs ih =>
    intro acc x
    rw [List.foldl_cons, ih]
    unfold nameStep
    by_cases h : r.headD [] ∈ acc
    · rw [if_pos h]
      simp only [List.map_cons, List.mem_cons]
      constructor
      · rintro (hx | hx)
        · exact Or.inl hx
        · exact Or.inr (Or.inr hx)
      · rintro (hx | hx | hx)
        · exact Or.inl hx
        · exact Or.inl (hx ▸ h)
        · exact Or.inr hx
    · rw [if_neg h]
      simp only [List.mem_append, List.mem_singleton, List.map_cons, List.mem_cons,
        List.not_mem_nil, or_false]
      tauto

theorem nodup_foldl_nameStep (rows : Data) :
    ∀ acc : List Str, acc.Nodup → (rows.foldl nameStep acc).Nodup := by
  induction rows with
  | nil =>
    intro acc h
    exact h
  | cons r rs ih =>
    intro acc h
    rw [List.foldl_cons]
    apply ih
    unfold nameStep
    by_cases hmem : r.headD [] ∈ acc
    · rw [if_pos hmem]
      exact h
    · rw [if_neg hmem]
      rw [List.nodup_append]
      refine ⟨h, List.nodup_singleton _, ?_⟩
      intro a ha hb
      rw [List.mem_singleton] at hb
      subst hb
      exact hmem ha

theorem mem_firstSeenNames (rows : Data) (x : Str) :
    x ∈ firstSeenNames rows ↔ x ∈ rows.map (fun r => r.headD []) := by
  unfold firstSeenNames
  rw [mem_foldl_nameStep]
  simp

theorem firstSeenNames_nodup (rows : Data) : (firstSeenNames rows).Nodup :=
  nodup_foldl_nameStep rows [] List.nodup_nil

theorem firstSeenNames_append (pre : Data) (r : Row) :
    firstSeenNames (pre ++ [r]) = nameStep (firstSeenNames pre) r := by
  unfold firstSeenNames
  rw [List.foldl_append]
  rfl

theorem brokerTotal_append (pre : Data) (r : Row) (b : Str) :
    brokerTotal (pre ++ [r]) b = totalStep b (brokerTotal pre b) r := by
  unfold brokerTotal
  rw [List.foldl_append]
  rfl

theorem foldl_totalStep_const (b : Str) (rows : Data) :
    ∀ t : JNum, (∀ r ∈ rows, r.headD [] ≠ b) → rows.foldl (totalStep b) t = t := by
  induction rows with
  | nil =>
    intro t _
    rfl
  | cons r rs ih =>
    intro t h
    rw [List.foldl_cons]
    unfold totalStep
    rw [if_neg (h r (List.mem_cons_self r rs))]
    exact ih t (fun x hx => h x (List.mem_cons_of_mem r hx))

theorem brokerTotal_eq_zero (rows : Data) (b : Str)
    (h : b ∉ rows.map (fun r => r.headD [])) : brokerTotal rows b = JNum.num 0 := by
  unfold brokerTotal
  apply foldl_totalStep_const
  intro r hr he
  exact h (List.mem_map.mpr ⟨r, hr, he⟩)

theorem assocFind_map (names : List Str) (g : Str → JNum) (b : Str) :
    assocFind (names.map (fun n => (n, g n))) b =
      if b ∈ names then some (g b) else none := by
  induction names with
  | nil => simp [assocFind]
  | cons n ns ih =>
    by_cases h : n = b
    · subst h
      unfold assocFind
      rw [List.map_cons, List.find?_cons_of_pos _ (by simp)]
      simp
    · unfold assocFind at ih ⊢
      rw [List.map_cons, List.find?_cons_of_neg _ (by simp [h]), ih]
      simp [Ne.symm h]

theorem assocSet_map_mem (names : List Str) (g : Str → JNum) (b : Str) (v : JNum) :
    names.Nodup → b ∈ names →
      assocSet (names.map (fun n => (n, g n))) b v =
        names.map (fun n => (n, if n = b then v else g n)) := by
  induction names with
  | nil =>
    intro _ hb
    simp at hb
  | cons n ns ih =>
    intro hnd hb
    by_cases h : n = b
    · subst h
      rw [List.map_cons, assocSet, if_pos rfl, List.map_cons, if_pos rfl]
      have hnotin : n ∉ ns := (List.nodup_cons.mp hnd).1
      have : ∀ x ∈ ns, ((x, g x) : Str × JNum) = (x, if x = n then v else g x) := by
        intro x hx
        have hxn : ¬(x = n) := fun e => hnotin (e ▸ hx)
        rw [if_neg hxn]
      rw [List.map_congr_left (fun x hx => (this x hx).symm)]
    · rw [List.map_cons, assocSet, if_neg h, List.map_cons, if_neg h]
      have hb2 : b ∈ ns := by
        rcases List.mem_cons.mp hb with he | he
        · exact absurd he.symm h
        · exact he
      rw [ih (List.nodup_cons.mp hnd).2 hb2]

theorem assocSet_map_not_mem (names : List Str) (g : Str → JNum) (b : Str) (v : JNum) :
    b ∉ names →
      assocSet (names.map (fun n => (n, g n))) b v =
        names.map (fun n => (n, g n)) ++ [(b, v)] := by
  induction names with
  | nil =>
    intro _
    rfl
  | cons n ns ih =>
    intro hb
    have h : ¬(n = b) := fun e => hb (by simp [e])
    rw [List.map_cons, assocSet, if_neg h, ih (fun h2 => hb (List.mem_cons_of_mem _ h2))]
    rfl

theorem row_shape_of_four_le (r : Row) (h : 4 ≤ r.length) :
    ∃ b c base bonus rest, r = b :: c :: base :: bonus :: rest := by
  match r with
  | [] => simp at h
  | [b] => simp at h
  | [b, c] => simp at h
  | [b, c, d] => simp at h
  | b :: c :: d :: e :: rest => exact ⟨b, c, d, e, rest, rfl⟩

theorem summaryStep_canon (pre : Data) (r : Row) (h4 : 4 ≤ r.length) :
    summaryStep (summaryCanon pre) r = Except.ok (summaryCanon (pre ++ [r])) := by
  obtain ⟨b, c, base, bonus, rest, rfl⟩ := row_shape_of_four_le r h4
  have hhead : ((b :: c :: base :: bonus :: rest : Row)).headD [] = b := rfl
  have hcur : (assocFind (summaryCanon pre) b).getD (JNum.num 0) = brokerTotal pre b := by
    unfold summaryCanon
    rw [assocFind_map]
    by_cases hb : b ∈ firstSeenNames pre
    · rw [if_pos hb]
      rfl
    · rw [if_neg hb]
      have : b ∉ pre.map (fun r => r.headD []) := fun hm =>
        hb ((mem_firstSeenNames pre b).mpr hm)
      rw [show (none : Option JNum).getD (JNum.num 0) = JNum.num 0 from rfl,
        brokerTotal_eq_zero pre b this]
  have hres : summaryStep (summaryCanon pre) (b :: c :: base :: bonus :: rest) =
      Except.ok (assocSet (summaryCanon pre) b
        (jnumAdd (jnumAdd ((assocFind (summaryCanon pre) b).getD (JNum.num 0))
          (parseFloatChars (base.drop 1))) (parseFloatChars (bonus.drop 1)))) := rfl
  rw [hres, hcur]
  congr 1
  have hnew : jnumAdd (jnumAdd (brokerTotal pre b) (parseFloatChars (base.drop 1)))
      (parseFloatChars (bonus.drop 1)) =
      brokerTotal (pre ++ [b :: c :: base :: bonus :: rest]) b := by
    rw [brokerTotal_append]
    unfold totalStep
    rw [if_pos hhead]
    rfl
  rw [hnew]
  by_cases hb : b ∈ firstSeenNames pre
  · unfold summaryCanon
    rw [assocSet_map_mem (firstSeenNames pre) _ b _ (firstSeenNames_nodup pre) hb]
    rw [firstSeenNames_append]
    unfold nameStep
    rw [hhead, if_pos hb]
    apply List.map_congr_left
    intro n hn
    by_cases hnb : n = b
    · subst hnb
      rw [if_pos rfl]
    · rw [if_neg hnb, brokerTotal_append]
      unfold totalStep
      rw [hhead, if_neg (fun e => hnb e.symm)]
  · unfold summaryCanon
    rw [assocSet_map_not_mem (firstSeenNames pre) _ b _ hb]
    rw [firstSeenNames_append]
    unfold nameStep
    rw [hhead, if_neg hb, List.map_append]
    congr 1
    apply List.map_congr_left
    intro n hn
    have hnb : n ≠ b := fun e => hb (e ▸ hn)
    rw [brokerTotal_append]
    unfold totalStep
    rw [hhead, if_neg (fun e => hnb e.symm)]

theorem foldlME_summary_canon :
    ∀ (rows pre : Data), (∀ r ∈ rows, 4 ≤ r.length) →
      foldlME summaryStep (summaryCanon pre) rows = Except.ok (summaryCanon (pre ++ rows)) := by
  intro rows
  induction rows with
  | nil =>
    intro pre _
    rw [List.append_nil]
    rfl
  | cons r rs ih =>
    intro pre h4
    have hstep := summaryStep_canon pre r (h4 r (List.mem_cons_self r rs))
    rw [foldlME, hstep]
    have hrest := ih (pre ++ [r]) (fun x hx => h4 x (List.mem_cons_of_mem r hx))
    show foldlME summaryStep (summaryCanon (pre ++ [r])) rs =
      Except.ok (summaryCanon (pre ++ r :: rs))
    rw [hrest, List.append_assoc]
    rfl

theorem foldl_totalStep_eq_sum (b : Str) (rows : Data) :
    ∀ t : JNum, rows.foldl (totalStep b) t =
      ((rows.filter (fun r => r.headD [] = b)).map
        (fun r => jnumAdd (rowBase r) (rowBonus r))).foldl jnumAdd t := by
  induction rows with
  | nil =>
    intro t
    rfl
  | cons r rs ih =>
    intro t
    rw [List.foldl_cons]
    by_cases h : r.headD [] = b
    · rw [show totalStep b t r = jnumAdd (jnumAdd t (rowBase r)) (rowBonus r) from by
        unfold totalStep; rw [if_pos h]]
      rw [List.filter_cons_of_pos (by simp only [decide_eq_true_eq]; exact h), List.map_cons,
        List.foldl_cons, ih]
      rw [jnumAdd_assoc]
    · rw [show totalStep b t r = t from by unfold totalStep; rw [if_neg h]]
      rw [List.filter_cons_of_neg (by simp only [decide_eq_true_eq]; exact h), ih]

theorem brokerTotal_eq_specBrokerSum (rows : Data) (b : Str) :
    brokerTotal rows b = specBrokerSum rows b :=
  foldl_totalStep_eq_sum b rows (JNum.num 0)

theorem jsObjectKeys_id (al : List (Str × JNum))
    (h : ∀ p ∈ al, isArrayIndexKey p.1 = false) : jsObjectKeys al = al := by
  unfold jsObjectKeys
  have h1 : al.filter (fun p => isArrayIndexKey p.1) = [] := by
    rw [List.filter_eq_nil_iff]
    intro p hp
    simp [h p hp]
  have h2 : al.filter (fun p => !isArrayIndexKey p.1) = al := by
    rw [List.filter_eq_self]
    intro p hp
    simp [h p hp]
  rw [h1, h2]
  rfl

/-- A commission report whose broker names make the dictionary pathologies
visible: `Alice` appears first, the broker named `7` second. -/
def summaryOrderDemo : Data :=
  [[str "BrokerName", str "CaseId", str "BaseCommission", str "BonusCommission"],
    [str "Alice", str "1", str "£125", str "£0"],
    [str "7", str "2", str "£125", str "£0"]]

attribute [local semireducible] Rat.add Rat.sub Rat.mul Rat.inv Rat.ofScientific in
/-- Claim C5 is false as stated: the summary rows are not always in
first-seen order of the broker names.  `Object.keys` enumerates keys that
are canonical array indices first, in ascending numeric order; a broker
named `7` is such a key, so it is emitted before `Alice` even though
`Alice` was seen first.  At this concrete input the first-seen order is
`[Alice, 7]` but the emitted data rows are `[7, Alice]`. -/
theorem getCommissionSummaryData_firstSeen_counterexample :
    getCommissionSummaryData summaryOrderDemo =
      Except.ok [[str "BrokerName", str "TotalCommission"],
        [str "7", str "£125"], [str "Alice", str "£125"]] ∧
    firstSeenNames (summaryOrderDemo.drop 1) = [str "Alice", str "7"] ∧
    ([str "7", str "£125"] : Row) ≠ [str "Alice", str "£125"] := by
  refine ⟨by decide, by decide, by decide⟩

attribute [local semireducible] Rat.add Rat.sub Rat.mul Rat.inv Rat.ofScientific in
/-- Claim C5, amended: for every 4-column commission report whose broker
names are plain dictionary keys — not canonical array indices (which
`Object.keys` would reorder numerically to the front) and not names of
`Object.prototype` members such as `__proto__` or `hasOwnProperty` (which
JavaScript property assignment treats specially) — the summary generator
emits exactly one output row per distinct broker name, in first-seen
(insertion) order, with the total equal to the sum over that broker's rows
of `baseCommission + bonusCommission`. -/
theorem getCommissionSummaryData_grouping (header : Row) (rows : Data)
    (h4 : ∀ r ∈ rows, r.length = 4)
    (hNoIdx : ∀ r ∈ rows, isArrayIndexKey (r.headD []) = false)
    (hNoProto : ∀ r ∈ rows, r.headD [] ≠ str "__proto__" ∧ r.headD [] ≠ str "hasOwnProperty") :
    getCommissionSummaryData (header :: rows) =
      Except.ok ([str "BrokerName", str "TotalCommission"] ::
        (firstSeenNames rows).map (fun b => [b, '£' :: jsNumToStr (specBrokerSum rows b)])) := by
  have h4le : ∀ r ∈ rows, 4 ≤ r.length := fun r hr => le_of_eq (h4 r hr).symm
  unfold getCommissionSummaryData
  have hfold : foldlME summaryStep [] ((header :: rows).drop 1) =
      Except.ok (summaryCanon rows) := by
    rw [show (header :: rows).drop 1 = rows from rfl]
    have h := foldlME_summary_canon rows [] h4le
    rw [show summaryCanon [] = [] from rfl] at h
    rw [show (([] : Data) ++ rows) = rows from rfl] at h
    exact h
  rw [hfold]
  have hkeys : jsObjectKeys (summaryCanon rows) = summaryCanon rows := by
    apply jsObjectKeys_id
    intro p hp
    unfold summaryCanon at hp
    obtain ⟨n, hn, rfl⟩ := List.mem_map.mp hp
    obtain ⟨r, hr, rfl⟩ := List.mem_map.mp ((mem_firstSeenNames rows n).mp hn)
    exact hNoIdx r hr
  show Except.ok ([str "BrokerName", str "TotalCommission"] ::
      (jsObjectKeys (summaryCanon rows)).map (fun kv => [kv.1, '£' :: jsNumToStr kv.2])) = _
  rw [hkeys]
  unfold summaryCanon
  rw [List.map_map]
  have hpt : ∀ b ∈ firstSeenNames rows,
      ((fun kv : Str × JNum => [kv.1, '£' :: jsNumToStr kv.2]) ∘
        fun b => (b, brokerTotal rows b)) b =
        [b, '£' :: jsNumToStr (specBrokerSum rows b)] := by
    intro b hb
    show [b, '£' :: jsNumToStr (brokerTotal rows b)] = [b, '£' :: jsNumToStr (specBrokerSum rows b)]
    rw [brokerTotal_eq_specBrokerSum]
  rw [List.map_congr_left hpt]

attribute [local semireducible] Rat.add Rat.sub Rat.mul Rat.inv Rat.ofScientific in
theorem getCommissionSummaryData_grouping_witness :
    (∀ r ∈ [[str "Alice", str "1", str "£125", str "£0"],
        [str "Alice", str "2", str "£125", str "£10"]], List.length r = 4) ∧
    (∀ r ∈ [[str "Alice", str "1", str "£125", str "£0"],
        [str "Alice", str "2", str "£125", str "£10"]],
      isArrayIndexKey (List.headD r []) = false) ∧
    (∀ r ∈ [[str "Alice", str "1", str "£125", str "£0"],
        [str "Alice", str "2", str "£125", str "£10"]],
      List.headD r [] ≠ str "__proto__" ∧ List.headD r [] ≠ str "hasOwnProperty") ∧
    getCommissionSummaryData
        ([str "BrokerName", str "CaseId", str "BaseCommission", str "BonusCommission"] ::
          [[str "Alice", str "1", str "£125", str "£0"],
            [str "Alice", str "2", str "£125", str "£10"]]) =
      Except.ok [[str "BrokerName", str "TotalCommission"], [str "Alice", str "£260"]] := by
  refine ⟨by decide, by decide, by decide, ?_⟩
  rw [getCommissionSummaryData_grouping
    [str "BrokerName", str "CaseId", str "BaseCommission", str "BonusCommission"]
    [[str "Alice", str "1", str "£125", str "£0"], [str "Alice", str "2", str "£125", str "£10"]]
    (by decide) (by decide) (by decide)]
  decide
